import Mathlib

/-!
Shallow embedding of `tomlreadwr` (`src/toml_config.rs`), the path-resolution
and mutation engine of a TOML configuration store, together with proofs about
its dotted-path operations `get`, `get_str`, `get_of_type`, `set`, `delete`
and `create`.

Modelling conventions:
* `toml::Value` becomes the inductive `Toml.Value`.  The `Float` and
  `Datetime` scalar variants are omitted: the path-resolution code never
  inspects a scalar's payload, only whether a value is a table, so they
  behave exactly like the other scalar constructors.
* `toml::map::Map` (a `BTreeMap<String, Value>` by default) becomes an
  association list without duplicate keys.  The operations used by the code
  (`get`, `insert` overwriting an existing binding, `remove`) are modelled
  directly; key order is irrelevant to every statement proved here.
* The Rust methods mutate `self.data` in place through `&mut` references
  obtained by `get_mut`.  This is modelled by explicit state passing: each
  mutating operation returns the resulting tree together with an optional
  error, and writing through the mutable borrow into the parent table is the
  function `setChild`.  An error constructor corresponds to each distinct
  `bail!`/`ok_or_else` message in the source.
* `key.split('.')` in Rust always returns at least one element (splitting
  the empty string gives one empty segment); `splitKey` below reimplements
  this splitting structurally so that it evaluates by `decide`.
* `load` and `save` are file I/O and are outside the embedding; every
  operation below acts on the root `Value` (`TomlConfig.data`).
-/

namespace TomlRW

/-- `toml::Value`, without the `Float`/`Datetime` payloads (see header note). -/
inductive Value where
  | string : String → Value
  | integer : Int → Value
  | boolean : Bool → Value
  | array : List Value → Value
  | table : List (String × Value) → Value

/-- One constructor for each distinct error produced by
`TomlConfig::set`/`delete`/`create` (`anyhow::bail!` / `ok_or_else` sites). -/
inductive Err where
  /-- "Key cannot be empty" -/
  | emptyKey
  /-- "Path '\x7bpart\x7d' does not exist" -/
  | pathNotFound : String → Err
  /-- "'\x7bpart\x7d' is not a table" (set/delete intermediate check) -/
  | notATable : String → Err
  /-- "Parent is not a table" (terminal `as_table_mut` failure) -/
  | parentNotTable
  /-- "Cannot create nested key in non-table" (create, `as_table_mut` before inserting a fresh table) -/
  | createNonTable
  /-- "Failed to navigate to '\x7bpart\x7d'" (create, `get_mut` right after the optional insert) -/
  | navigateFail : String → Err
  /-- "'\x7bpart\x7d' is not a table, cannot create nested keys" (create intermediate check) -/
  | createNotATable : String → Err
deriving DecidableEq

/-- `Map::get` on the underlying key-value list. -/
def lookupKV : List (String × Value) → String → Option Value
  | [], _ => none
  | (k, v) :: rest, key => if k = key then some v else lookupKV rest key

/-- `Map::insert`: overwrite the binding if the key is present, else add it. -/
def insertKV : List (String × Value) → String → Value → List (String × Value)
  | [], key, v => [(key, v)]
  | (k, w) :: rest, key, v =>
      if k = key then (k, v) :: rest else (k, w) :: insertKV rest key v

/-- `Map::remove`: drop the binding for the key if present. -/
def removeKV : List (String × Value) → String → List (String × Value)
  | [], _ => []
  | (k, w) :: rest, key =>
      if k = key then rest else (k, w) :: removeKV rest key

/-- `Value::get(part)` for a string index: table lookup, `None` on any other
variant (`toml`'s `Index for str`: `as_table().and_then(|t| t.get(key))`).
`Value::get_mut` resolves the same child. -/
def Value.getKey : Value → String → Option Value
  | .table m, k => lookupKV m k
  | _, _ => none

/-- `Value::is_table`. -/
def Value.isTable : Value → Bool
  | .table _ => true
  | _ => false

/-- `Value::as_str`. -/
def Value.asStr : Value → Option String
  | .string s => some s
  | _ => none

/-- Writing the updated child value back through the `&mut Value` obtained by
`get_mut part` on the parent (which only succeeds when the parent is a table
containing the key). -/
def setChild : Value → String → Value → Value
  | .table m, k, c => .table (insertKV m k c)
  | t, _, _ => t

/-- `key.split('.')` on the underlying character list: Rust's `split` always
yields at least one (possibly empty) segment; splitting `""` yields `[""]`. -/
def splitDots : List Char → List (List Char)
  | [] => [[]]
  | c :: rest =>
      let r := splitDots rest
      if c = '.' then [] :: r
      else
        match r with
        | [] => [[c]]
        | g :: gs => (c :: g) :: gs

/-- The `parts` vector: `key.split('.').collect::<Vec<&str>>()`. -/
def splitKey (s : String) : List String :=
  (splitDots s.toList).map fun g => String.mk g

/-- The loop body of `TomlConfig::get`: repeatedly `current = current.get(part)?`. -/
def resolveSegs : Value → List String → Option Value
  | t, [] => some t
  | t, p :: rest => (Value.getKey t p).bind fun c => resolveSegs c rest

/-- `TomlConfig::get`. -/
def TomlConfig.get (t : Value) (key : String) : Option Value :=
  resolveSegs t (splitKey key)

/-- `TomlConfig::get_str`: `self.get(key)?.as_str()`. -/
def TomlConfig.getStr (t : Value) (key : String) : Option String :=
  (TomlConfig.get t key).bind Value.asStr

/-- `TomlConfig::get_of_type::<T>`: `T::deserialize(self.get(key)?.clone()).ok()`.
The serde deserializer for the target type `T`, composed with `.ok()`, is an
arbitrary function `d : Value → Option α`; cloning is the identity here. -/
def TomlConfig.getOfType {α : Type} (d : Value → Option α) (t : Value) (key : String) :
    Option α :=
  match TomlConfig.get t key with
  | none => none
  | some v => d v

/-- The loop and terminal insert of `TomlConfig::set`, with the tree state
threaded explicitly (the Rust code mutates `self.data` through `current`).
The `[]` case is unreachable: callers pass the result of `splitKey`. -/
def setGo (v : Value) : Value → List String → Value × Option Err
  | t, [] => (t, some .emptyKey)
  | t, [last] =>
      match t with
      | .table m => (.table (insertKV m last v), none)
      | _ => (t, some .parentNotTable)
  | t, p :: q :: rest =>
      match Value.getKey t p with
      | none => (t, some (.pathNotFound p))
      | some c =>
          if c.isTable then
            let r := setGo v c (q :: rest)
            (setChild t p r.1, r.2)
          else (t, some (.notATable p))

/-- `TomlConfig::set`.  The result is the new `self.data` plus the error, if
any, of the returned `Result`. -/
def TomlConfig.set (t : Value) (key : String) (v : Value) : Value × Option Err :=
  let parts := splitKey key
  if parts.isEmpty then (t, some .emptyKey) else setGo v t parts

/-- The loop and terminal `remove` of `TomlConfig::delete`. -/
def deleteGo : Value → List String → Value × Option Err
  | t, [] => (t, some .emptyKey)
  | t, [last] =>
      match t with
      | .table m => (.table (removeKV m last), none)
      | _ => (t, some .parentNotTable)
  | t, p :: q :: rest =>
      match Value.getKey t p with
      | none => (t, some (.pathNotFound p))
      | some c =>
          if c.isTable then
            let r := deleteGo c (q :: rest)
            (setChild t p r.1, r.2)
          else (t, some (.notATable p))

/-- `TomlConfig::delete`. -/
def TomlConfig.delete (t : Value) (key : String) : Value × Option Err :=
  let parts := splitKey key
  if parts.isEmpty then (t, some .emptyKey) else deleteGo t parts

/-- The loop and terminal insert of `TomlConfig::create`: each iteration first
inserts an empty table when the segment is missing, then navigates into it. -/
def createGo (v : Value) : Value → List String → Value × Option Err
  | t, [] => (t, some .emptyKey)
  | t, [last] =>
      match t with
      | .table m => (.table (insertKV m last v), none)
      | _ => (t, some .parentNotTable)
  | t, p :: q :: rest =>
      let step : Except Err Value :=
        if (Value.getKey t p).isNone then
          match t with
          | .table m => .ok (.table (insertKV m p (.table [])))
          | _ => .error .createNonTable
        else .ok t
      match step with
      | .error e => (t, some e)
      | .ok t1 =>
          match Value.getKey t1 p with
          | none => (t1, some (.navigateFail p))
          | some c =>
              if c.isTable then
                let r := createGo v c (q :: rest)
                (setChild t1 p r.1, r.2)
              else (t1, some (.createNotATable p))

/-- `TomlConfig::create`. -/
def TomlConfig.create (t : Value) (key : String) (v : Value) : Value × Option Err :=
  let parts := splitKey key
  if parts.isEmpty then (t, some .emptyKey) else createGo v t parts

end TomlRW


namespace TomlRW

/-- `Value::is_str() || is_integer() || is_bool()` style scalar test: a value
that is neither a table nor an array. -/
def Value.isScalar : Value → Bool
  | .string _ => true
  | .integer _ => true
  | .boolean _ => true
  | .array _ => false
  | .table _ => false

/-- Specification predicate: the traversal precondition of `set`/`delete` on
the segment list.  Every intermediate segment resolves to an existing table
child, and the parent of the final segment (the root itself for a
single-segment path; `load` only ever produces table roots) is a table. -/
def parentsOkB : Value → List String → Bool
  | _, [] => false
  | t, [_] => t.isTable
  | t, p :: q :: rest =>
      match Value.getKey t p with
      | some c => c.isTable && parentsOkB c (q :: rest)
      | none => false

/-- Specification predicate: the success condition of `create`.  Along the
path, every intermediate segment that already exists must be a table; at the
first missing segment the receiver must be a table (a fresh empty table is
inserted there, below which creation always succeeds). -/
def createOkB : Value → List String → Bool
  | _, [] => false
  | t, [_] => t.isTable
  | t, p :: q :: rest =>
      match Value.getKey t p with
      | some c => c.isTable && createOkB c (q :: rest)
      | none => t.isTable

/-- Specification function: descend through existing table children only
(the prefix of a traversal that has already succeeded). -/
def descendTables : Value → List String → Option Value
  | t, [] => some t
  | t, p :: rest =>
      match Value.getKey t p with
      | some c => if c.isTable then descendTables c rest else none
      | none => none

/-- Specification predicate: two segment lists diverge, i.e. neither is a
leading part of the other (they differ at some position both of them have). -/
def divergesB : List String → List String → Bool
  | p :: ps, q :: qs => if p = q then divergesB ps qs else true
  | _, _ => false

/-- Specification relation: the value tree resolves a segment list to a value
by successive table-key child lookups. -/
inductive Resolves : Value → List String → Value → Prop
  | nil (t : Value) : Resolves t [] t
  | cons {t c v : Value} {s : String} {rest : List String} :
      Value.getKey t s = some c → Resolves c rest v → Resolves t (s :: rest) v

theorem splitDots_ne_nil (cs : List Char) : splitDots cs ≠ [] := by
  match cs with
  | [] => simp [splitDots]
  | c :: rest =>
    have ih := splitDots_ne_nil rest
    simp only [splitDots]
    split
    · simp
    · match h : splitDots rest with
      | [] => simp
      | g :: gs => simp

theorem splitKey_ne_nil (s : String) : splitKey s ≠ [] := by
  simp [splitKey, splitDots_ne_nil]

theorem splitKey_isEmpty (s : String) : (splitKey s).isEmpty = false := by
  simp [List.isEmpty_iff, splitKey_ne_nil]

theorem lookupKV_insertKV_same (m : List (String × Value)) (k : String) (v : Value) :
    lookupKV (insertKV m k v) k = some v := by
  induction m with
  | nil => simp [insertKV, lookupKV]
  | cons kv rest ih =>
    obtain ⟨k0, w⟩ := kv
    by_cases h : k0 = k <;> simp [insertKV, lookupKV, h, ih]

theorem lookupKV_insertKV_ne (m : List (String × Value)) {k q : String} (v : Value)
    (h : k ≠ q) : lookupKV (insertKV m k v) q = lookupKV m q := by
  induction m with
  | nil => simp [insertKV, lookupKV, h]
  | cons kv rest ih =>
    obtain ⟨k0, w⟩ := kv
    by_cases h0 : k0 = k
    · subst h0
      simp [insertKV, lookupKV, h]
    · by_cases h1 : k0 = q <;> simp [insertKV, lookupKV, h0, h1, ih, Ne.symm h]

theorem insertKV_lookup_id {m : List (String × Value)} {k : String} {c : Value}
    (h : lookupKV m k = some c) : insertKV m k c = m := by
  induction m with
  | nil => simp [lookupKV] at h
  | cons kv rest ih =>
    obtain ⟨k0, w⟩ := kv
    by_cases h0 : k0 = k
    · subst h0
      simp [lookupKV] at h
      simp [insertKV, h]
    · simp [lookupKV, h0] at h
      simp [insertKV, h0, ih h]

theorem lookupKV_removeKV_ne (m : List (String × Value)) {k q : String}
    (h : k ≠ q) : lookupKV (removeKV m k) q = lookupKV m q := by
  induction m with
  | nil => simp [removeKV]
  | cons kv rest ih =>
    obtain ⟨k0, w⟩ := kv
    by_cases h0 : k0 = k
    · subst h0
      simp [removeKV, lookupKV, h]
    · by_cases h1 : k0 = q <;> simp [removeKV, lookupKV, h0, h1, ih, Ne.symm h]

theorem getKey_setChild_same {t c : Value} {p : String} (h : Value.getKey t p = some c)
    (c' : Value) : Value.getKey (setChild t p c') p = some c' := by
  match t with
  | .table m => simp [setChild, Value.getKey, lookupKV_insertKV_same]
  | .string _ | .integer _ | .boolean _ | .array _ => simp [Value.getKey] at h

theorem getKey_setChild_ne (t c' : Value) {p q : String} (h : p ≠ q) :
    Value.getKey (setChild t p c') q = Value.getKey t q := by
  match t with
  | .table m => simp [setChild, Value.getKey, lookupKV_insertKV_ne _ _ h]
  | .string _ | .integer _ | .boolean _ | .array _ => simp [setChild, Value.getKey]

theorem setChild_self {t c : Value} {p : String} (h : Value.getKey t p = some c) :
    setChild t p c = t := by
  match t with
  | .table m =>
    simp [Value.getKey] at h
    simp [setChild, insertKV_lookup_id h]
  | .string _ | .integer _ | .boolean _ | .array _ => simp [Value.getKey] at h

theorem isTable_setChild (t : Value) (p : String) (c' : Value) :
    Value.isTable (setChild t p c') = Value.isTable t := by
  match t with
  | .table m => simp [setChild, Value.isTable]
  | .string _ | .integer _ | .boolean _ | .array _ => simp [setChild]

end TomlRW

namespace TomlRW

theorem setGo_cons_notfound (v t : Value) {p : String} {l : List String} (hl : l ≠ [])
    (h : Value.getKey t p = none) : setGo v t (p :: l) = (t, some (.pathNotFound p)) := by
  match l with
  | [] => exact absurd rfl hl
  | q :: rest => simp [setGo, h]

theorem setGo_cons_nontable (v t : Value) {p : String} {c : Value} {l : List String}
    (hl : l ≠ []) (h : Value.getKey t p = some c) (hc : c.isTable = false) :
    setGo v t (p :: l) = (t, some (.notATable p)) := by
  match l with
  | [] => exact absurd rfl hl
  | q :: rest => simp [setGo, h, hc]

theorem setGo_cons_table (v t : Value) {p : String} {c : Value} {l : List String}
    (hl : l ≠ []) (h : Value.getKey t p = some c) (hc : c.isTable = true) :
    setGo v t (p :: l) = (setChild t p (setGo v c l).1, (setGo v c l).2) := by
  match l with
  | [] => exact absurd rfl hl
  | q :: rest => simp [setGo, h, hc]

theorem deleteGo_cons_notfound (t : Value) {p : String} {l : List String} (hl : l ≠ [])
    (h : Value.getKey t p = none) : deleteGo t (p :: l) = (t, some (.pathNotFound p)) := by
  match l with
  | [] => exact absurd rfl hl
  | q :: rest => simp [deleteGo, h]

theorem deleteGo_cons_nontable (t : Value) {p : String} {c : Value} {l : List String}
    (hl : l ≠ []) (h : Value.getKey t p = some c) (hc : c.isTable = false) :
    deleteGo t (p :: l) = (t, some (.notATable p)) := by
  match l with
  | [] => exact absurd rfl hl
  | q :: rest => simp [deleteGo, h, hc]

theorem deleteGo_cons_table (t : Value) {p : String} {c : Value} {l : List String}
    (hl : l ≠ []) (h : Value.getKey t p = some c) (hc : c.isTable = true) :
    deleteGo t (p :: l) = (setChild t p (deleteGo c l).1, (deleteGo c l).2) := by
  match l with
  | [] => exact absurd rfl hl
  | q :: rest => simp [deleteGo, h, hc]

theorem createGo_cons_existing_nontable (v t : Value) {p : String} {c : Value}
    {l : List String} (hl : l ≠ []) (h : Value.getKey t p = some c)
    (hc : c.isTable = false) :
    createGo v t (p :: l) = (t, some (.createNotATable p)) := by
  match l with
  | [] => exact absurd rfl hl
  | q :: rest => simp [createGo, h, hc]

theorem createGo_cons_existing_table (v t : Value) {p : String} {c : Value}
    {l : List String} (hl : l ≠ []) (h : Value.getKey t p = some c)
    (hc : c.isTable = true) :
    createGo v t (p :: l) = (setChild t p (createGo v c l).1, (createGo v c l).2) := by
  match l with
  | [] => exact absurd rfl hl
  | q :: rest => simp [createGo, h, hc]

theorem createGo_cons_missing_nontable (v t : Value) {p : String} {l : List String}
    (hl : l ≠ []) (hni : Value.getKey t p = none) (ht : t.isTable = false) :
    createGo v t (p :: l) = (t, some .createNonTable) := by
  match l with
  | [] => exact absurd rfl hl
  | q :: rest =>
    match t with
    | .table m => simp [Value.isTable] at ht
    | .string s | .integer n | .boolean b | .array xs => simp [createGo, hni]

theorem createGo_cons_missing_table (v : Value) {m : List (String × Value)} {p : String}
    {l : List String} (hl : l ≠ []) (hni : Value.getKey (.table m) p = none) :
    createGo v (.table m) (p :: l) =
      (setChild (.table (insertKV m p (.table []))) p (createGo v (.table []) l).1,
       (createGo v (.table []) l).2) := by
  match l with
  | [] => exact absurd rfl hl
  | q :: rest =>
    have hni2 : lookupKV m p = none := by simpa [Value.getKey] using hni
    have hk : lookupKV (insertKV m p (.table [])) p = some (.table []) :=
      lookupKV_insertKV_same m p _
    simp [createGo, Value.getKey, hni2, hk, Value.isTable]

theorem parentsOkB_cons {t : Value} {p : String} {l : List String} (hl : l ≠ []) :
    parentsOkB t (p :: l) = true ↔
      ∃ c, Value.getKey t p = some c ∧ c.isTable = true ∧ parentsOkB c l = true := by
  match l with
  | [] => exact absurd rfl hl
  | q :: rest =>
    match h : Value.getKey t p with
    | none => simp [parentsOkB, h]
    | some c => simp [parentsOkB, h]

theorem createOkB_fresh {l : List String} (hl : l ≠ []) :
    createOkB (.table []) l = true := by
  match l with
  | [] => exact absurd rfl hl
  | [q] => simp [createOkB, Value.isTable]
  | q :: q2 :: rest => simp [createOkB, Value.getKey, lookupKV, Value.isTable]

theorem resolveSegs_cons (t : Value) (p : String) (l : List String) :
    resolveSegs t (p :: l) = (Value.getKey t p).bind fun c => resolveSegs c l := rfl

end TomlRW

namespace TomlRW

theorem isTable_table {t : Value} (h : t.isTable = true) : ∃ m, t = .table m := by
  match t with
  | .table m => exact ⟨m, rfl⟩
  | .string s | .integer n | .boolean b | .array xs => simp [Value.isTable] at h

theorem parentsOkB_isTable {t : Value} {l : List String} (h : parentsOkB t l = true) :
    t.isTable = true := by
  match l with
  | [] => simp [parentsOkB] at h
  | [x] => simpa [parentsOkB] using h
  | p :: q :: rest =>
    match hgk : Value.getKey t p with
    | none => simp [parentsOkB, hgk] at h
    | some c =>
      match t with
      | .table m => simp [Value.isTable]
      | .string s | .integer n | .boolean b | .array xs => simp [Value.getKey] at hgk

theorem setGo_ok (v : Value) : ∀ (t : Value) (ps : List String),
    parentsOkB t ps = true →
    (setGo v t ps).2 = none ∧ resolveSegs (setGo v t ps).1 ps = some v
  | t, [], h => by simp [parentsOkB] at h
  | t, [last], h => by
    match t with
    | .table m =>
      simp [setGo, resolveSegs, Value.getKey, lookupKV_insertKV_same]
    | .string s | .integer n | .boolean b | .array xs =>
      simp [parentsOkB, Value.isTable] at h
  | t, p :: q :: rest, h => by
    rw [parentsOkB_cons (by simp)] at h
    obtain ⟨c, hgk, hct, hok⟩ := h
    have ih := setGo_ok v c (q :: rest) hok
    rw [setGo_cons_table v t (by simp) hgk hct]
    refine ⟨ih.1, ?_⟩
    rw [resolveSegs_cons, getKey_setChild_same hgk]
    simpa using ih.2

theorem deleteGo_ok : ∀ (t : Value) (ps : List String),
    parentsOkB t ps = true →
    (deleteGo t ps).2 = none ∧ parentsOkB (deleteGo t ps).1 ps = true
  | t, [], h => by simp [parentsOkB] at h
  | t, [last], h => by
    match t with
    | .table m => simp [deleteGo, parentsOkB, Value.isTable]
    | .string s | .integer n | .boolean b | .array xs =>
      simp [parentsOkB, Value.isTable] at h
  | t, p :: q :: rest, h => by
    rw [parentsOkB_cons (by simp)] at h
    obtain ⟨c, hgk, hct, hok⟩ := h
    have ih := deleteGo_ok c (q :: rest) hok
    rw [deleteGo_cons_table t (by simp) hgk hct]
    refine ⟨ih.1, ?_⟩
    rw [parentsOkB_cons (by simp)]
    exact ⟨(deleteGo c (q :: rest)).1, getKey_setChild_same hgk _,
      parentsOkB_isTable ih.2, ih.2⟩

theorem createOkB_cons {t : Value} {p : String} {l : List String} (hl : l ≠ []) :
    createOkB t (p :: l) = true ↔
      ((∃ c, Value.getKey t p = some c ∧ c.isTable = true ∧ createOkB c l = true) ∨
       (Value.getKey t p = none ∧ t.isTable = true)) := by
  match l with
  | [] => exact absurd rfl hl
  | q :: rest =>
    match h : Value.getKey t p with
    | none => simp [createOkB, h]
    | some c => simp [createOkB, h]

theorem createGo_ok (v : Value) : ∀ (t : Value) (ps : List String),
    createOkB t ps = true →
    (createGo v t ps).2 = none ∧ resolveSegs (createGo v t ps).1 ps = some v
  | t, [], h => by simp [createOkB] at h
  | t, [last], h => by
    match t with
    | .table m =>
      simp [createGo, resolveSegs, Value.getKey, lookupKV_insertKV_same]
    | .string s | .integer n | .boolean b | .array xs =>
      simp [createOkB, Value.isTable] at h
  | t, p :: q :: rest, h => by
    rw [createOkB_cons (by simp)] at h
    rcases h with ⟨c, hgk, hct, hok⟩ | ⟨hgk, hti⟩
    · have ih := createGo_ok v c (q :: rest) hok
      rw [createGo_cons_existing_table v t (by simp) hgk hct]
      refine ⟨ih.1, ?_⟩
      rw [resolveSegs_cons, getKey_setChild_same hgk]
      simpa using ih.2
    · obtain ⟨m, rfl⟩ := isTable_table hti
      have ih := createGo_ok v (.table []) (q :: rest) (createOkB_fresh (by simp))
      rw [createGo_cons_missing_table v (by simp) hgk]
      refine ⟨ih.1, ?_⟩
      have hk : Value.getKey (.table (insertKV m p (.table []))) p = some (.table []) := by
        simp [Value.getKey, lookupKV_insertKV_same]
      rw [resolveSegs_cons, getKey_setChild_same hk]
      simpa using ih.2

theorem setGo_error (v : Value) : ∀ (t : Value) (ps : List String),
    (setGo v t ps).2 ≠ none → (setGo v t ps).1 = t
  | t, [], _ => by simp [setGo]
  | t, [last], h => by
    match t with
    | .table m => simp [setGo] at h
    | .string s | .integer n | .boolean b | .array xs => simp [setGo]
  | t, p :: q :: rest, h => by
    match hgk : Value.getKey t p with
    | none => rw [setGo_cons_notfound v t (by simp) hgk]
    | some c =>
      match hct : c.isTable with
      | false => rw [setGo_cons_nontable v t (by simp) hgk hct]
      | true =>
        rw [setGo_cons_table v t (by simp) hgk hct] at h ⊢
        simp only at h
        have ih := setGo_error v c (q :: rest) h
        simp [ih, setChild_self hgk]

theorem deleteGo_error : ∀ (t : Value) (ps : List String),
    (deleteGo t ps).2 ≠ none → (deleteGo t ps).1 = t
  | t, [], _ => by simp [deleteGo]
  | t, [last], h => by
    match t with
    | .table m => simp [deleteGo] at h
    | .string s | .integer n | .boolean b | .array xs => simp [deleteGo]
  | t, p :: q :: rest, h => by
    match hgk : Value.getKey t p with
    | none => rw [deleteGo_cons_notfound t (by simp) hgk]
    | some c =>
      match hct : c.isTable with
      | false => rw [deleteGo_cons_nontable t (by simp) hgk hct]
      | true =>
        rw [deleteGo_cons_table t (by simp) hgk hct] at h ⊢
        simp only at h
        have ih := deleteGo_error c (q :: rest) h
        simp [ih, setChild_self hgk]

end TomlRW

namespace TomlRW

theorem setGo_skips_notfound (v : Value) : ∀ (t u : Value) (pre : List String)
    (p : String) (l : List String), l ≠ [] →
    descendTables t pre = some u → Value.getKey u p = none →
    setGo v t (pre ++ p :: l) = (t, some (.pathNotFound p))
  | t, u, [], p, l, hl, hd, hk => by
    have : t = u := by simpa [descendTables] using hd
    subst this
    exact setGo_cons_notfound v t hl hk
  | t, u, a :: pre, p, l, hl, hd, hk => by
    match hga : Value.getKey t a with
    | none => simp [descendTables, hga] at hd
    | some ca =>
      match hcat : ca.isTable with
      | false => simp [descendTables, hga, hcat] at hd
      | true =>
        have hd2 : descendTables ca pre = some u := by
          simpa [descendTables, hga, hcat] using hd
        have ih := setGo_skips_notfound v ca u pre p l hl hd2 hk
        rw [List.cons_append, setGo_cons_table v t (by simp) hga hcat]
        simp [ih, setChild_self hga]

theorem setGo_skips_nontable (v : Value) : ∀ (t u c : Value) (pre : List String)
    (p : String) (l : List String), l ≠ [] →
    descendTables t pre = some u → Value.getKey u p = some c → c.isTable = false →
    setGo v t (pre ++ p :: l) = (t, some (.notATable p))
  | t, u, c, [], p, l, hl, hd, hk, hc => by
    have : t = u := by simpa [descendTables] using hd
    subst this
    exact setGo_cons_nontable v t hl hk hc
  | t, u, c, a :: pre, p, l, hl, hd, hk, hc => by
    match hga : Value.getKey t a with
    | none => simp [descendTables, hga] at hd
    | some ca =>
      match hcat : ca.isTable with
      | false => simp [descendTables, hga, hcat] at hd
      | true =>
        have hd2 : descendTables ca pre = some u := by
          simpa [descendTables, hga, hcat] using hd
        have ih := setGo_skips_nontable v ca u c pre p l hl hd2 hk hc
        rw [List.cons_append, setGo_cons_table v t (by simp) hga hcat]
        simp [ih, setChild_self hga]

theorem createGo_skips_nontable (v : Value) : ∀ (t u c : Value) (pre : List String)
    (p : String) (l : List String), l ≠ [] →
    descendTables t pre = some u → Value.getKey u p = some c → c.isTable = false →
    createGo v t (pre ++ p :: l) = (t, some (.createNotATable p))
  | t, u, c, [], p, l, hl, hd, hk, hc => by
    have : t = u := by simpa [descendTables] using hd
    subst this
    exact createGo_cons_existing_nontable v t hl hk hc
  | t, u, c, a :: pre, p, l, hl, hd, hk, hc => by
    match hga : Value.getKey t a with
    | none => simp [descendTables, hga] at hd
    | some ca =>
      match hcat : ca.isTable with
      | false => simp [descendTables, hga, hcat] at hd
      | true =>
        have hd2 : descendTables ca pre = some u := by
          simpa [descendTables, hga, hcat] using hd
        have ih := createGo_skips_nontable v ca u c pre p l hl hd2 hk hc
        rw [List.cons_append, createGo_cons_existing_table v t (by simp) hga hcat]
        simp [ih, setChild_self hga]

theorem divergesB_nil_right (ps : List String) : divergesB ps [] = false := by
  cases ps <;> simp [divergesB]

theorem setGo_frame (v : Value) : ∀ (t : Value) (ps qs : List String),
    divergesB ps qs = true → (setGo v t ps).2 = none →
    resolveSegs (setGo v t ps).1 qs = resolveSegs t qs
  | t, [], qs, hd, _ => by simp [divergesB] at hd
  | t, [last], qs, hd, hs => by
    match qs with
    | [] => simp [divergesB] at hd
    | q :: qt =>
      have hlq : last ≠ q := by
        by_cases he : last = q
        · subst he
          simp [divergesB, divergesB_nil_right] at hd
        · exact he
      match t with
      | .table m =>
        simp only [setGo]
        simp [resolveSegs_cons, Value.getKey, lookupKV_insertKV_ne m v hlq]
      | .string s | .integer n | .boolean b | .array xs => simp [setGo] at hs
  | t, p :: p2 :: pr, qs, hd, hs => by
    match qs with
    | [] => simp [divergesB] at hd
    | q :: qt =>
      match hgk : Value.getKey t p with
      | none => rw [setGo_cons_notfound v t (by simp) hgk] at hs; simp at hs
      | some c =>
        match hct : c.isTable with
        | false => rw [setGo_cons_nontable v t (by simp) hgk hct] at hs; simp at hs
        | true =>
          rw [setGo_cons_table v t (by simp) hgk hct] at hs ⊢
          simp only at hs
          by_cases hpq : p = q
          · subst hpq
            have hd2 : divergesB (p2 :: pr) qt = true := by simpa [divergesB] using hd
            have ih := setGo_frame v c (p2 :: pr) qt hd2 hs
            rw [resolveSegs_cons, getKey_setChild_same hgk, resolveSegs_cons, hgk]
            simpa using ih
          · rw [resolveSegs_cons, getKey_setChild_ne t _ hpq, resolveSegs_cons]

theorem deleteGo_frame : ∀ (t : Value) (ps qs : List String),
    divergesB ps qs = true → (deleteGo t ps).2 = none →
    resolveSegs (deleteGo t ps).1 qs = resolveSegs t qs
  | t, [], qs, hd, _ => by simp [divergesB] at hd
  | t, [last], qs, hd, hs => by
    match qs with
    | [] => simp [divergesB] at hd
    | q :: qt =>
      have hlq : last ≠ q := by
        by_cases he : last = q
        · subst he
          simp [divergesB, divergesB_nil_right] at hd
        · exact he
      match t with
      | .table m =>
        simp only [deleteGo]
        simp [resolveSegs_cons, Value.getKey, lookupKV_removeKV_ne m hlq]
      | .string s | .integer n | .boolean b | .array xs => simp [deleteGo] at hs
  | t, p :: p2 :: pr, qs, hd, hs => by
    match qs with
    | [] => simp [divergesB] at hd
    | q :: qt =>
      match hgk : Value.getKey t p with
      | none => rw [deleteGo_cons_notfound t (by simp) hgk] at hs; simp at hs
      | some c =>
        match hct : c.isTable with
        | false => rw [deleteGo_cons_nontable t (by simp) hgk hct] at hs; simp at hs
        | true =>
          rw [deleteGo_cons_table t (by simp) hgk hct] at hs ⊢
          simp only at hs
          by_cases hpq : p = q
          · subst hpq
            have hd2 : divergesB (p2 :: pr) qt = true := by simpa [divergesB] using hd
            have ih := deleteGo_frame c (p2 :: pr) qt hd2 hs
            rw [resolveSegs_cons, getKey_setChild_same hgk, resolveSegs_cons, hgk]
            simpa using ih
          · rw [resolveSegs_cons, getKey_setChild_ne t _ hpq, resolveSegs_cons]

theorem createGo_frame (v : Value) : ∀ (t : Value) (ps qs : List String),
    divergesB ps qs = true → (createGo v t ps).2 = none →
    resolveSegs (createGo v t ps).1 qs = resolveSegs t qs
  | t, [], qs, hd, _ => by simp [divergesB] at hd
  | t, [last], qs, hd, hs => by
    match qs with
    | [] => simp [divergesB] at hd
    | q :: qt =>
      have hlq : last ≠ q := by
        by_cases he : last = q
        · subst he
          simp [divergesB, divergesB_nil_right] at hd
        · exact he
      match t with
      | .table m =>
        simp only [createGo]
        simp [resolveSegs_cons, Value.getKey, lookupKV_insertKV_ne m v hlq]
      | .string s | .integer n | .boolean b | .array xs => simp [createGo] at hs
  | t, p :: p2 :: pr, qs, hd, hs => by
    match qs with
    | [] => simp [divergesB] at hd
    | q :: qt =>
      match hgk : Value.getKey t p with
      | some c =>
        match hct : c.isTable with
        | false =>
          rw [createGo_cons_existing_nontable v t (by simp) hgk hct] at hs
          simp at hs
        | true =>
          rw [createGo_cons_existing_table v t (by simp) hgk hct] at hs ⊢
          simp only at hs
          by_cases hpq : p = q
          · subst hpq
            have hd2 : divergesB (p2 :: pr) qt = true := by simpa [divergesB] using hd
            have ih := createGo_frame v c (p2 :: pr) qt hd2 hs
            rw [resolveSegs_cons, getKey_setChild_same hgk, resolveSegs_cons, hgk]
            simpa using ih
          · rw [resolveSegs_cons, getKey_setChild_ne t _ hpq, resolveSegs_cons]
      | none =>
        match hti : t.isTable with
        | false =>
          rw [createGo_cons_missing_nontable v t (by simp) hgk hti] at hs
          simp at hs
        | true =>
          obtain ⟨m, rfl⟩ := isTable_table hti
          rw [createGo_cons_missing_table v (by simp) hgk] at hs ⊢
          simp only at hs
          have hk1 : Value.getKey (.table (insertKV m p (.table []))) p
              = some (.table []) := by
            simp [Value.getKey, lookupKV_insertKV_same]
          by_cases hpq : p = q
          · subst hpq
            have hd2 : divergesB (p2 :: pr) qt = true := by simpa [divergesB] using hd
            have ih := createGo_frame v (.table []) (p2 :: pr) qt hd2 hs
            have hqt : resolveSegs (.table []) qt = none := by
              match qt with
              | [] => rw [divergesB_nil_right] at hd2; simp at hd2
              | x :: xt => simp [resolveSegs_cons, Value.getKey, lookupKV]
            rw [resolveSegs_cons, getKey_setChild_same hk1, resolveSegs_cons, hgk]
            simp [ih, hqt]
          · have hni2 : lookupKV m p = none := by simpa [Value.getKey] using hgk
            rw [resolveSegs_cons, getKey_setChild_ne _ _ hpq, resolveSegs_cons]
            simp [Value.getKey, lookupKV_insertKV_ne m _ hpq]

end TomlRW

namespace TomlRW

theorem TomlConfig.set_eq (t : Value) (key : String) (v : Value) :
    TomlConfig.set t key v = setGo v t (splitKey key) := by
  simp [TomlConfig.set, splitKey_isEmpty]

theorem TomlConfig.delete_eq (t : Value) (key : String) :
    TomlConfig.delete t key = deleteGo t (splitKey key) := by
  simp [TomlConfig.delete, splitKey_isEmpty]

theorem TomlConfig.create_eq (t : Value) (key : String) (v : Value) :
    TomlConfig.create t key v = createGo v t (splitKey key) := by
  simp [TomlConfig.create, splitKey_isEmpty]

theorem resolveSegs_iff : ∀ (t : Value) (l : List String) (v : Value),
    resolveSegs t l = some v ↔ Resolves t l v
  | t, [], v => by
    constructor
    · intro h
      have : t = v := by simpa [resolveSegs] using h
      subst this
      exact .nil t
    · intro h
      cases h
      rfl
  | t, p :: rest, v => by
    constructor
    · intro h
      rw [resolveSegs_cons] at h
      match hgk : Value.getKey t p with
      | none =>
        rw [hgk] at h
        exact Option.noConfusion h
      | some c =>
        rw [hgk] at h
        exact .cons hgk ((resolveSegs_iff c rest v).1 h)
    · intro h
      cases h with
      | @cons _ c _ _ _ hgk hres =>
        rw [resolveSegs_cons, hgk]
        simpa using (resolveSegs_iff _ rest v).2 hres

end TomlRW

namespace TomlRW

/-- C1: for every valid dotted path (each segment non-empty, each intermediate
segment resolving to an existing table child — with the parent of the final
segment a table, which for a single-segment path is the store root, always a
table after `load`) and every value `v`, `set` succeeds and an immediate
`get` of the same path returns exactly `v`.  The statement puts no condition
on any entry previously stored at the path, so it covers silent replacement
of an existing entry of a different variant. -/
theorem c1_set_then_get_returns_value (t : Value) (key : String) (v : Value)
    (_hseg : ∀ s ∈ splitKey key, s ≠ "")
    (hpar : parentsOkB t (splitKey key) = true) :
    (TomlConfig.set t key v).2 = none ∧
    TomlConfig.get (TomlConfig.set t key v).1 key = some v := by
  rw [TomlConfig.set_eq]
  exact ⟨(setGo_ok v t _ hpar).1, (setGo_ok v t _ hpar).2⟩

theorem c1_witness :
    (∀ s ∈ splitKey "a.b", s ≠ "") ∧
    parentsOkB (.table [("a", .table [("x", .integer 3)])]) (splitKey "a.b") = true ∧
    (TomlConfig.set (.table [("a", .table [("x", .integer 3)])]) "a.b"
      (.boolean true)).2 = none ∧
    TomlConfig.get
      (TomlConfig.set (.table [("a", .table [("x", .integer 3)])]) "a.b"
        (.boolean true)).1 "a.b" = some (.boolean true) := by
  have h := c1_set_then_get_returns_value (.table [("a", .table [("x", .integer 3)])])
    "a.b" (.boolean true) (by decide) (by decide)
  exact ⟨by decide, by decide, h.1, h.2⟩

/-- C2: `create` traverses like `set` except that each missing intermediate
segment causes an empty table to be inserted there before continuing, and it
still fails with the type-mismatch error ("'…' is not a table, cannot create
nested keys") when a position reached through existing table children holds
an existing non-table value.  Concretely, `create "a.b.c" v` on a store whose
root is an empty table succeeds, produces tables at "a" and "a.b", and a
subsequent `get "a.b.c"` returns `v`. -/
theorem c2_create_autovivifies :
    (∀ v : Value,
      (TomlConfig.create (.table []) "a.b.c" v).2 = none ∧
      TomlConfig.get (TomlConfig.create (.table []) "a.b.c" v).1 "a"
        = some (.table [("b", .table [("c", v)])]) ∧
      TomlConfig.get (TomlConfig.create (.table []) "a.b.c" v).1 "a.b"
        = some (.table [("c", v)]) ∧
      TomlConfig.get (TomlConfig.create (.table []) "a.b.c" v).1 "a.b.c" = some v) ∧
    (∀ (t u c v : Value) (pre : List String) (p : String) (l : List String)
        (key : String), l ≠ [] → splitKey key = pre ++ p :: l →
      descendTables t pre = some u → Value.getKey u p = some c →
      c.isTable = false →
      TomlConfig.create t key v = (t, some (.createNotATable p))) := by
  constructor
  · intro v
    exact ⟨rfl, rfl, rfl, rfl⟩
  · intro t u c v pre p l key hl hsp hd hk hc
    rw [TomlConfig.create_eq, hsp]
    exact createGo_skips_nontable v t u c pre p l hl hd hk hc

theorem c2_witness :
    TomlConfig.create (.table [("a", .integer 1)]) "a.b" (.integer 7)
      = (.table [("a", .integer 1)], some (.createNotATable "a")) :=
  c2_create_autovivifies.2 (.table [("a", .integer 1)]) (.table [("a", .integer 1)])
    (.integer 1) (.integer 7) [] "a" ["b"] "a.b" (by decide) (by decide) rfl rfl rfl

/-- C3: `get` walks from the root following each dot-separated segment via
immutable table-key child lookup; it returns `some` of the final located
value exactly when every segment resolves (the relation `Resolves`) and
`none` the instant any segment fails, with no error and no distinction of
failure causes (both `get`, `get_str` and `get_of_type` are total functions
into `Option`, so they never raise an error).  `get_str` succeeds exactly
when `get` finds a string scalar. -/
theorem c3_get_walks_segments (t : Value) (key : String) :
    (∀ v, TomlConfig.get t key = some v ↔ Resolves t (splitKey key) v) ∧
    (∀ s, TomlConfig.getStr t key = some s ↔
      TomlConfig.get t key = some (.string s)) := by
  constructor
  · intro v
    exact resolveSegs_iff t (splitKey key) v
  · intro s
    rw [TomlConfig.getStr]
    match hg : TomlConfig.get t key with
    | none => simp
    | some w =>
      match w with
      | .string s0 => simp [Value.asStr]
      | .integer n | .boolean b | .array xs | .table m => simp [Value.asStr]

end TomlRW

namespace TomlRW

theorem isScalar_not_isTable {c : Value} (h : c.isScalar = true) :
    c.isTable = false := by
  match c with
  | .string s | .integer n | .boolean b => rfl
  | .array xs | .table m => simp [Value.isScalar] at h

/-- C4: when segment "a" does not exist in the root table, `set "a.b" v`
fails with the path-not-found error ("Path 'a' does not exist") and leaves
the tree unchanged, while `create "a.b" v` on the same starting state
succeeds.  In general, on a dotted path with at least two segments whose
already-traversed leading segments resolve through existing tables, `set`
fails with `pathNotFound` at the first absent intermediate segment, and with
`notATable` (the TypeMismatch error "'…' is not a table") at an intermediate
segment that exists but is not a table. -/
theorem c4_set_fails_create_succeeds :
    (∀ (m : List (String × Value)) (v : Value), lookupKV m "a" = none →
      TomlConfig.set (.table m) "a.b" v = (.table m, some (.pathNotFound "a")) ∧
      (TomlConfig.create (.table m) "a.b" v).2 = none) ∧
    (∀ (t u v : Value) (pre : List String) (p : String) (l : List String)
        (key : String), l ≠ [] → splitKey key = pre ++ p :: l →
      descendTables t pre = some u → Value.getKey u p = none →
      TomlConfig.set t key v = (t, some (.pathNotFound p))) ∧
    (∀ (t u c v : Value) (pre : List String) (p : String) (l : List String)
        (key : String), l ≠ [] → splitKey key = pre ++ p :: l →
      descendTables t pre = some u → Value.getKey u p = some c →
      c.isTable = false →
      TomlConfig.set t key v = (t, some (.notATable p))) := by
  refine ⟨?_, ?_, ?_⟩
  · intro m v hm
    have hsp : splitKey "a.b" = ["a", "b"] := by decide
    constructor
    · rw [TomlConfig.set_eq, hsp]
      exact setGo_cons_notfound v (.table m) (by simp) (by simpa [Value.getKey] using hm)
    · rw [TomlConfig.create_eq, hsp]
      have hok : createOkB (.table m) ["a", "b"] = true := by
        simp [createOkB, Value.getKey, hm, Value.isTable]
      exact (createGo_ok v (.table m) ["a", "b"] hok).1
  · intro t u v pre p l key hl hsp hd hk
    rw [TomlConfig.set_eq, hsp]
    exact setGo_skips_notfound v t u pre p l hl hd hk
  · intro t u c v pre p l key hl hsp hd hk hc
    rw [TomlConfig.set_eq, hsp]
    exact setGo_skips_nontable v t u c pre p l hl hd hk hc

theorem c4_witness :
    TomlConfig.set (.table []) "a.b" (.integer 5)
      = (.table [], some (.pathNotFound "a")) ∧
    (TomlConfig.create (.table []) "a.b" (.integer 5)).2 = none ∧
    TomlConfig.set (.table [("a", .table [])]) "a.b.c" (.integer 5)
      = (.table [("a", .table [])], some (.pathNotFound "b")) ∧
    TomlConfig.set (.table [("a", .integer 9)]) "a.b" (.integer 5)
      = (.table [("a", .integer 9)], some (.notATable "a")) := by
  have h1 := c4_set_fails_create_succeeds.1 [] (.integer 5) rfl
  have h2 := c4_set_fails_create_succeeds.2.1 (.table [("a", .table [])])
    (.table []) (.integer 5) ["a"] "b" ["c"] "a.b.c" (by decide) (by decide) rfl rfl
  have h3 := c4_set_fails_create_succeeds.2.2 (.table [("a", .integer 9)])
    (.table [("a", .integer 9)]) (.integer 9) (.integer 5) [] "a" ["b"] "a.b"
    (by decide) (by decide) rfl rfl rfl
  exact ⟨h1.1, h1.2, h2, h3⟩

/-- C5 (the code contradicts the claim and its own doc comments): in Rust,
`key.split('.')` always yields at least one segment — splitting the empty
string yields one empty segment — so the `parts.is_empty()` guard that would
raise "Key cannot be empty" is unreachable.  The empty input string is
treated as the single segment `""`: `set`/`create` insert the empty-string
key at the root and `delete` removes it, all returning Ok and mutating the
tree; a trailing empty segment ("a.") likewise mutates.  (A path with an
interior empty segment such as "a..b" fails in `set`, but with
`pathNotFound`, not EmptyKey.) -/
theorem c5_empty_key_not_rejected :
    splitKey "" = [""] ∧
    TomlConfig.set (.table [("k", .integer 1)]) "" (.integer 2)
      = (.table [("k", .integer 1), ("", .integer 2)], none) ∧
    TomlConfig.delete (.table [("", .integer 1)]) "" = (.table [], none) ∧
    TomlConfig.create (.table []) "" (.integer 3)
      = (.table [("", .integer 3)], none) ∧
    TomlConfig.set (.table [("a", .table [])]) "a." (.integer 4)
      = (.table [("a", .table [("", .integer 4)])], none) ∧
    (TomlConfig.set (.table []) "a..b" (.integer 5)).2
      = some (.pathNotFound "a") :=
  ⟨rfl, rfl, rfl, rfl, rfl, rfl⟩

end TomlRW

namespace TomlRW

/-- C6 counterexample: the claim quantifies over every path that does not
resolve, but on an empty root table the path "a.b" does not resolve and
`delete "a.b"` does not succeed — it fails with `pathNotFound "a"`, because
`delete` requires every intermediate segment to exist. -/
theorem c6_counterexample :
    TomlConfig.get (.table []) "a.b" = none ∧
    TomlConfig.delete (.table []) "a.b" = (.table [], some (.pathNotFound "a")) :=
  ⟨rfl, rfl⟩

/-- C6 amended: for every path whose intermediate segments all resolve to
existing tables (with a table parent for the final segment), `delete`
succeeds even when the terminal key is absent, and two consecutive `delete`
calls on the same path both succeed: removing an absent terminal key is
idempotent and not an error. -/
theorem c6_amended_delete_idempotent (t : Value) (key : String)
    (hpar : parentsOkB t (splitKey key) = true) :
    (TomlConfig.delete t key).2 = none ∧
    (TomlConfig.delete (TomlConfig.delete t key).1 key).2 = none := by
  rw [TomlConfig.delete_eq t key]
  have h1 := deleteGo_ok t _ hpar
  refine ⟨h1.1, ?_⟩
  rw [TomlConfig.delete_eq]
  exact (deleteGo_ok _ _ h1.2).1

theorem c6_witness :
    parentsOkB (.table [("a", .table [("b", .integer 1)])]) (splitKey "a.b")
      = true ∧
    (TomlConfig.delete (.table [("a", .table [("b", .integer 1)])]) "a.b").2
      = none ∧
    (TomlConfig.delete
      (TomlConfig.delete (.table [("a", .table [("b", .integer 1)])]) "a.b").1
      "a.b").2 = none := by
  have h := c6_amended_delete_idempotent (.table [("a", .table [("b", .integer 1)])])
    "a.b" (by decide)
  exact ⟨by decide, h.1, h.2⟩

/-- C7: whenever `set` or `delete` returns an error (its second component is
`some e`), the resulting tree is exactly the input tree — the traversal
writes nothing before the terminal insert/remove, so a failed call leaves
`self.data` unchanged.  In particular, when the root table holds a scalar at
"x", `set "x.y" v` fails with the type-mismatch error ("'x' is not a table")
and the scalar is not overwritten. -/
theorem c7_error_leaves_tree_unchanged (t : Value) (key : String) (v : Value) :
    (∀ e, (TomlConfig.set t key v).2 = some e → (TomlConfig.set t key v).1 = t) ∧
    (∀ e, (TomlConfig.delete t key).2 = some e → (TomlConfig.delete t key).1 = t) ∧
    (∀ (m : List (String × Value)) (c : Value), lookupKV m "x" = some c →
      c.isScalar = true →
      TomlConfig.set (.table m) "x.y" v = (.table m, some (.notATable "x"))) := by
  refine ⟨?_, ?_, ?_⟩
  · intro e he
    rw [TomlConfig.set_eq] at he ⊢
    exact setGo_error v t _ (by simp [he])
  · intro e he
    rw [TomlConfig.delete_eq] at he ⊢
    exact deleteGo_error t _ (by simp [he])
  · intro m c hm hs
    have hsp : splitKey "x.y" = ["x", "y"] := by decide
    rw [TomlConfig.set_eq, hsp]
    exact setGo_cons_nontable v (.table m) (by simp)
      (by simpa [Value.getKey] using hm) (isScalar_not_isTable hs)

theorem c7_witness :
    (TomlConfig.set (.table []) "a.b" (.integer 1)).1 = .table [] ∧
    (TomlConfig.delete (.table []) "a.b").1 = .table [] ∧
    TomlConfig.set (.table [("x", .integer 3)]) "x.y" (.integer 1)
      = (.table [("x", .integer 3)], some (.notATable "x")) := by
  have h := c7_error_leaves_tree_unchanged (.table []) "a.b" (.integer 1)
  have h2 := c7_error_leaves_tree_unchanged (.table [("x", .integer 3)]) "x.y"
    (.integer 1)
  exact ⟨h.1 (.pathNotFound "a") (by decide), h.2.1 (.pathNotFound "a") (by decide),
    h2.2.2 [("x", .integer 3)] (.integer 3) rfl rfl⟩

/-- C8: `get_of_type` never errors: it returns `none` both when the path does
not resolve and — because serde's result is collapsed by `.ok()` — when the
located value fails to deserialize for any reason, the two cases being
indistinguishable to the caller; when it returns `some`, the result is the
deserialization `d` applied to (a clone of) the located value.  Here `d` is
an arbitrary function standing for `T::deserialize` composed with `.ok()`. -/
theorem c8_get_of_type_collapses_failures {α : Type} (d : Value → Option α)
    (t : Value) (key : String) :
    (TomlConfig.get t key = none → TomlConfig.getOfType d t key = none) ∧
    (∀ v, TomlConfig.get t key = some v → TomlConfig.getOfType d t key = d v) := by
  constructor
  · intro h
    simp [TomlConfig.getOfType, h]
  · intro v h
    simp [TomlConfig.getOfType, h]

theorem c8_witness :
    TomlConfig.getOfType (fun w => match w with | .integer n => some n | _ => none)
      (.table [("a", .integer 5)]) "zz" = none ∧
    TomlConfig.getOfType (fun w => match w with | .integer n => some n | _ => none)
      (.table [("a", .integer 5)]) "a" = some 5 ∧
    TomlConfig.getOfType (fun w => match w with | .integer n => some n | _ => none)
      (.table [("a", .string "s")]) "a" = none := by
  have h1 := (c8_get_of_type_collapses_failures
    (fun w => match w with | .integer n => some n | _ => none)
    (.table [("a", .integer 5)]) "zz").1 rfl
  have h2 := (c8_get_of_type_collapses_failures
    (fun w => match w with | .integer n => some n | _ => none)
    (.table [("a", .integer 5)]) "a").2 (.integer 5) rfl
  have h3 := (c8_get_of_type_collapses_failures
    (fun w => match w with | .integer n => some n | _ => none)
    (.table [("a", .string "s")]) "a").2 (.string "s") rfl
  exact ⟨h1, h2, h3⟩

end TomlRW

namespace TomlRW

/-- C9 counterexample: splitting the empty string yields the single empty
segment, not zero segments, so `get ""` performs one child lookup of the key
`""` instead of returning the root: on the root table containing only "a" it
returns `none`, not the root itself. -/
theorem c9_counterexample :
    TomlConfig.get (.table [("a", .integer 1)]) "" = none ∧
    (none : Option Value) ≠ some (.table [("a", .integer 1)]) :=
  ⟨rfl, nofun⟩

/-- C9 amended: `get` with the empty string treats it as the single segment
`""` and performs exactly one child lookup of the key `""` on the root,
returning that entry when present and `none` otherwise, never an error.  The
claimed contrast with the mutating operations also fails: their EmptyKey
guard is unreachable (the C5 theorem), so they accept the empty string as
the single segment `""` too. -/
theorem c9_amended_get_empty_string (t : Value) :
    TomlConfig.get t "" = Value.getKey t "" := by
  have hs : splitKey "" = [""] := by decide
  rw [TomlConfig.get, hs]
  cases hgk : Value.getKey t "" <;> simp [resolveSegs_cons, resolveSegs, hgk]

/-- C10 counterexample: a successful `set "a.b"` changes the value reached by
the distinct dotted path "a" (a parent on the written spine), so "every entry
whose dotted path is not P itself keeps its previous value" fails as
literally stated. -/
theorem c10_counterexample :
    (TomlConfig.set (.table [("a", .table [("b", .integer 1)])]) "a.b"
      (.integer 2)).2 = none ∧
    TomlConfig.get
        (TomlConfig.set (.table [("a", .table [("b", .integer 1)])]) "a.b"
          (.integer 2)).1 "a"
      ≠ TomlConfig.get (.table [("a", .table [("b", .integer 1)])]) "a" := by
  refine ⟨rfl, ?_⟩
  show some (Value.table [("b", .integer 2)]) ≠ some (Value.table [("b", .integer 1)])
  simp

/-- C10 amended: a successful `set`, `delete` or `create` on path P leaves
`get` unchanged at every path Q that diverges from P — the two segment lists
differ at some position both possess, so neither is a leading part of the
other.  This covers all sibling keys at every level and all unrelated
subtrees.  (Paths on P's spine change because a descendant changed; paths
extending P change because the subtree at P is replaced; `create`
additionally fills previously missing intermediate positions of P, which lie
on P's spine, with fresh empty tables.) -/
theorem c10_amended_frame (t : Value) (pk qk : String) (v : Value)
    (hd : divergesB (splitKey pk) (splitKey qk) = true) :
    ((TomlConfig.set t pk v).2 = none →
      TomlConfig.get (TomlConfig.set t pk v).1 qk = TomlConfig.get t qk) ∧
    ((TomlConfig.delete t pk).2 = none →
      TomlConfig.get (TomlConfig.delete t pk).1 qk = TomlConfig.get t qk) ∧
    ((TomlConfig.create t pk v).2 = none →
      TomlConfig.get (TomlConfig.create t pk v).1 qk = TomlConfig.get t qk) := by
  rw [TomlConfig.set_eq, TomlConfig.delete_eq, TomlConfig.create_eq]
  exact ⟨setGo_frame v t _ _ hd, deleteGo_frame t _ _ hd, createGo_frame v t _ _ hd⟩

theorem c10_witness :
    TomlConfig.get
        (TomlConfig.set (.table [("a", .table [("b", .integer 1)]), ("c", .integer 9)])
          "a.b" (.integer 2)).1 "c"
      = TomlConfig.get (.table [("a", .table [("b", .integer 1)]), ("c", .integer 9)])
          "c" ∧
    TomlConfig.get
        (TomlConfig.delete
          (.table [("a", .table [("b", .integer 1)]), ("c", .integer 9)]) "a.b").1 "c"
      = TomlConfig.get (.table [("a", .table [("b", .integer 1)]), ("c", .integer 9)])
          "c" ∧
    TomlConfig.get
        (TomlConfig.create
          (.table [("a", .table [("b", .integer 1)]), ("c", .integer 9)])
          "a.x.y" (.integer 2)).1 "c"
      = TomlConfig.get (.table [("a", .table [("b", .integer 1)]), ("c", .integer 9)])
          "c" := by
  have h1 := c10_amended_frame
    (.table [("a", .table [("b", .integer 1)]), ("c", .integer 9)]) "a.b" "c"
    (.integer 2) (by decide)
  have h2 := c10_amended_frame
    (.table [("a", .table [("b", .integer 1)]), ("c", .integer 9)]) "a.x.y" "c"
    (.integer 2) (by decide)
  exact ⟨h1.1 (by decide), h1.2.1 (by decide), h2.2.2 (by decide)⟩

end TomlRW

namespace TomlRW

theorem c3_witness :
    TomlConfig.get (.table [("a", .integer 1)]) "a" = some (.integer 1) ∧
    Resolves (.table [("a", .integer 1)]) (splitKey "a") (.integer 1) := by
  have h := c3_get_walks_segments (.table [("a", .integer 1)]) "a"
  exact ⟨rfl, (h.1 (.integer 1)).1 rfl⟩

theorem c9_witness :
    TomlConfig.get (.table [("k", .integer 2)]) ""
      = Value.getKey (.table [("k", .integer 2)]) "" :=
  c9_amended_get_empty_string (.table [("k", .integer 2)])

end TomlRW
